import Mathlib

/-!
Verification of the Knowledge Base Build & Semantic Retrieval Engine of the
creche-pilou-chatbot repository, against its natural-language specification.

The Python source is shallowly embedded:
* `chunk_text` (scripts/process_documents.py) — the word-window chunker; its
  `while` loop is embedded with an explicit fuel parameter (`chunkLoop`),
  since the Python loop need not terminate when `chunk_size - overlap ≤ 0`.
  Python `str.split()` / `str.strip()` / list slicing are embedded as
  `pySplit` / `pyStrip` / `pySlice` over `List Char` / `List String`.
* `process_single_pdf`, `create_document_embeddings`,
  `merge_knowledge_bases` and the per-source loop body of `main`
  (scripts/process_documents.py) — the knowledge-base file store
  (`kb_<hash>.json` files) is embedded as an association list keyed by the
  content fingerprint; the embedding model call is a function parameter
  `encode : String → Option (List ℚ)` (`none` = the call raises), and the
  number of per-document model invocations is counted explicitly.
* `search_local_knowledge` (app.py) — the query-time ranking.  The cosine
  similarity over IEEE floats is abstracted as a function parameter
  `simq : List ℚ → List ℚ → ℚ`; Python's stable `list.sort(key=…,
  reverse=True)` is embedded as `List.insertionSort` with the
  score-descending relation (any stable sort is extensionally the same).
  The query embedding is `Option (List ℚ)` (`none` = the embedding call
  raises; the `except` branch of the source returns `[]`).

Dict-shaped document records are embedded as the structure `Doc` with the
schema the source reads and writes (`source`, `chunk_id`, `text`,
`file_hash`, `embedding`, `score`); the purely informational `metadata`
sub-dict (filename / size / mtime), which no core code path ever reads, is
elided.  A missing dict key is the `none` of the corresponding `Option`
field.
-/

/-- Python slice-index clamping for `l[a:b]` (step 1): negative indices
count from the end, then the index is clamped into `[0, len]`. -/
def pyClamp (n : Nat) (x : Int) : Nat :=
  if x < 0 then (x + n).toNat else min x.toNat n

/-- Python list slicing `l[a:b]` (step 1). -/
def pySlice (l : List String) (a b : Int) : List String :=
  (l.drop (pyClamp l.length a)).take (pyClamp l.length b - pyClamp l.length a)

/-- Helper for Python `str.split()`: walk the characters, accumulating the
current word reversed, flushing it at whitespace; empty words are dropped. -/
def pySplitAux : List Char → List Char → List String
  | [], [] => []
  | [], c :: cs => [String.mk (c :: cs).reverse]
  | c :: rest, cur =>
    if c.isWhitespace then
      match cur with
      | [] => pySplitAux rest []
      | _ :: _ => String.mk cur.reverse :: pySplitAux rest []
    else pySplitAux rest (c :: cur)

/-- Python `text.split()` (no separator): split on whitespace runs. -/
def pySplit (s : String) : List String :=
  pySplitAux s.data []

/-- Characters of Python `text.strip()`. -/
def stripChars (l : List Char) : List Char :=
  ((l.dropWhile Char.isWhitespace).reverse.dropWhile Char.isWhitespace).reverse

/-- Python `text.strip()`. -/
def pyStrip (s : String) : String :=
  String.mk (stripChars s.data)

/-- Ceiling division on naturals. -/
def ceilDiv (a b : Nat) : Nat :=
  (a + b - 1) / b

/-- The `while i < len(words)` loop of `chunk_text`
(scripts/process_documents.py, lines 131-135), with explicit fuel: one unit
of fuel per iteration, `none` when the fuel runs out before the loop exits.
Each iteration appends `" ".join(words[i:i + chunk_size])` and advances `i`
by `chunk_size - overlap`. -/
def chunkLoop : Nat → Int → List String → Int → Int → List String → Option (List String)
  | 0, i, words, _, _, acc =>
    if i < (words.length : Int) then none else some acc
  | fuel + 1, i, words, chunk_size, overlap, acc =>
    if i < (words.length : Int) then
      chunkLoop fuel (i + (chunk_size - overlap)) words chunk_size overlap
        (acc ++ [" ".intercalate (pySlice words i (i + chunk_size))])
    else some acc

/-- `chunk_text(text, chunk_size, overlap)` (scripts/process_documents.py,
lines 110-137).  Empty/whitespace-only text yields `[]`; at most
`chunk_size` words yields the single chunk `[text]` (the original,
untrimmed text); otherwise the sliding-window loop runs (fueled). -/
def chunk_text (fuel : Nat) (text : String) (chunk_size overlap : Int) : Option (List String) :=
  if pyStrip text = "" then some []
  else if ((pySplit text).length : Int) ≤ chunk_size then some [text]
  else chunkLoop fuel 0 (pySplit text) chunk_size overlap []

/-- A document record as built by `process_single_pdf` and consumed by
`search_local_knowledge`:  dict keys become fields, a missing key is
`none`.  The informational `metadata` sub-dict is elided (never read). -/
structure Doc where
  source : String
  chunk_id : Nat
  text : String
  file_hash : String
  embedding : Option (List ℚ)
  score : Option ℚ
deriving DecidableEq

/-- The persisted knowledge-base shape: `{"documents": …, "model": …}`. -/
structure KnowledgeBase where
  documents : List Doc
  model : Option String
deriving DecidableEq

/-! ## Retrieval engine (app.py, `search_local_knowledge`) -/

/-- The similarity pairs built by the `for doc in knowledge_base["documents"]`
loop (app.py, lines 70-78): a `(doc, similarity)` pair is appended exactly
when `doc.get("embedding")` is truthy, i.e. present and a non-empty list.
The cosine similarity of the query vector with the document vector is the
abstracted parameter `simq`. -/
def similarities (simq : List ℚ → ℚ) (docs : List Doc) : List (Doc × ℚ) :=
  docs.filterMap fun d =>
    match d.embedding with
    | some (v :: vs) => some (d, simq (v :: vs))
    | some [] => none
    | none => none

/-- The ordering used by `similarities.sort(key=lambda x: x[1], reverse=True)`:
descending similarity score. -/
def score_ge (a b : Doc × ℚ) : Prop :=
  b.2 ≤ a.2

instance : DecidableRel score_ge :=
  fun a b => inferInstanceAs (Decidable (b.2 ≤ a.2))

instance : IsTotal (Doc × ℚ) score_ge :=
  ⟨fun a b => le_total b.2 a.2⟩

instance : IsTrans (Doc × ℚ) score_ge :=
  ⟨fun _ _ _ hab hbc => le_trans hbc hab⟩

/-- One returned result (app.py, lines 86-91): `doc_copy = doc.copy()`,
then `doc_copy["score"] = score`, then `del doc_copy["embedding"]` when
present.  Only the fresh copy is written to; the stored record is not. -/
def buildResult (d : Doc) (s : ℚ) : Doc :=
  { d with score := some s, embedding := none }

/-- `search_local_knowledge(query, top_k)` (app.py, lines 59-97).
`qEmb` is the outcome of `sentence_model.encode([query])[0]` (`none` = the
call raises, in which case the source's `except` block returns `[]`).
Python's stable `list.sort(..., reverse=True)` is embedded as the stable
`List.insertionSort` under `score_ge`. -/
def search_local_knowledge (simq : List ℚ → List ℚ → ℚ) (kb : KnowledgeBase)
    (qEmb : Option (List ℚ)) (top_k : Nat) : List Doc :=
  if kb.documents = [] then []
  else
    match qEmb with
    | none => []
    | some qv =>
      ((List.insertionSort score_ge (similarities (simq qv) kb.documents)).take top_k).map
        fun p => buildResult p.1 p.2

/-! ## Build pipeline (scripts/process_documents.py) -/

/-- Lookup in the knowledge-base directory, keyed by content fingerprint:
models `(KNOWLEDGE_BASE_DIR / f"kb_{file_hash}.json").exists()` plus the
subsequent `json.load`. -/
def lookupStore : List (String × KnowledgeBase) → String → Option KnowledgeBase
  | [], _ => none
  | (k, v) :: rest, h => if k = h then some v else lookupStore rest h

/-- `save_knowledge_base` to `kb_{file_hash}.json`: writing replaces an
existing unit with the same fingerprint key. -/
def saveStore : List (String × KnowledgeBase) → String → KnowledgeBase → List (String × KnowledgeBase)
  | [], h, kb => [(h, kb)]
  | (k, v) :: rest, h, kb =>
    if k = h then (h, kb) :: rest else (k, v) :: saveStore rest h kb

/-- `process_single_pdf(pdf_path)` (scripts/process_documents.py, lines
139-191).  `file_hash` is the already-computed content fingerprint of the
file and `text` the extractor's output (`""` when extraction failed).  If a
persisted unit exists for the fingerprint, its documents are returned
verbatim; otherwise the text is chunked with the default
`chunk_size = 500`, `overlap = 100` and wrapped into records.  The fuel
`(pySplit text).length` always suffices for these defaults (stride 400),
so the `none` arm is unreachable here. -/
def process_single_pdf (store : List (String × KnowledgeBase))
    (file_hash filename text : String) : List Doc :=
  match lookupStore store file_hash with
  | some kb => kb.documents
  | none =>
    if text = "" then []
    else
      match chunk_text (pySplit text).length text 500 100 with
      | none => []
      | some chunks =>
        chunks.enum.map fun ic =>
          { source := filename, chunk_id := ic.1, text := ic.2
            file_hash := file_hash, embedding := none, score := none }

/-- The `for doc in documents: doc["embedding"] = model.encode(...)` loop of
`create_document_embeddings`, plus an invocation counter for the embedding
model.  A `none` from `encode` is the model call raising: the loop stops
there (documents from that point keep their previous fields) and the flag
is `false`. -/
def embedLoop (encode : String → Option (List ℚ)) : List Doc → List Doc × Nat × Bool
  | [] => ([], 0, true)
  | d :: rest =>
    match encode d.text with
    | some v =>
      let r := embedLoop encode rest
      ({ d with embedding := some v } :: r.1, r.2.1 + 1, r.2.2)
    | none => (d :: rest, 1, false)

/-- `create_document_embeddings(documents, model_name)`
(scripts/process_documents.py, lines 193-224), returning the produced
knowledge base together with the number of embedding-model invocations.
On failure the `except` branch returns the documents as mutated so far
with `"model": None`. -/
def create_document_embeddings (encode : String → Option (List ℚ))
    (model_name : String) (documents : List Doc) : KnowledgeBase × Nat :=
  if documents = [] then (⟨[], none⟩, 0)
  else
    let r := embedLoop encode documents
    (if r.2.2 then ⟨r.1, some model_name⟩ else ⟨r.1, none⟩, r.2.1)

/-- The per-source body of the `for pdf_path in pdf_files` loop of `main`
(scripts/process_documents.py, lines 318-329): process the source, and if
any documents came back, embed them all and persist the unit under
`documents[0]["file_hash"]`.  Returns the updated store and the number of
embedding-model invocations this source caused. -/
def mainStep (encode : String → Option (List ℚ)) (model_name : String)
    (store : List (String × KnowledgeBase)) (file_hash filename text : String) :
    List (String × KnowledgeBase) × Nat :=
  match process_single_pdf store file_hash filename text with
  | [] => (store, 0)
  | d :: ds =>
    let r := create_document_embeddings encode model_name (d :: ds)
    (saveStore store d.file_hash r.1, r.2)

/-- Python truthiness of the `model` field (`None` and `""` are falsy). -/
def truthyStr : Option String → Bool
  | none => false
  | some s => decide (s ≠ "")

/-- `merge_knowledge_bases()` (scripts/process_documents.py, lines 242-274):
concatenate the documents of every persisted unit, record the model name of
the first unit with a truthy one, and return `{"documents": [], "model":
None}` when no unit file exists.  No model-identity comparison is made. -/
def merge_knowledge_bases (units : List KnowledgeBase) : KnowledgeBase :=
  match units with
  | [] => ⟨[], none⟩
  | u :: us =>
    let r := (u :: us).foldl
      (fun acc unit =>
        (acc.1 ++ unit.documents,
         if truthyStr acc.2 = false ∧ truthyStr unit.model = true then unit.model
         else acc.2))
      ([], none)
    ⟨r.1, r.2⟩

/-- `main()` (scripts/process_documents.py, lines 299-340) over a list of
sources given as `(file_hash, filename, extracted_text)` triples: with zero
PDF files it logs and returns without writing anything (`none`); otherwise
it runs `mainStep` per source and merges every persisted unit into the
served knowledge base. -/
def mainBuild (encode : String → Option (List ℚ)) (model_name : String)
    (store : List (String × KnowledgeBase))
    (sources : List (String × String × String)) :
    Option (KnowledgeBase × List (String × KnowledgeBase)) :=
  match sources with
  | [] => none
  | s :: ss =>
    let store2 := (s :: ss).foldl
      (fun st src => (mainStep encode model_name st src.1 src.2.1 src.2.2).1) store
    some (merge_knowledge_bases (store2.map Prod.snd), store2)

/-! ## Concrete instances used by the closed theorems -/

/-- A concrete embedded document. -/
def docA : Doc :=
  { source := "a.pdf", chunk_id := 0, text := "texte a", file_hash := "ha"
    embedding := some [1], score := none }

/-- A second concrete embedded document. -/
def docB : Doc :=
  { source := "b.pdf", chunk_id := 0, text := "texte b", file_hash := "hb"
    embedding := some [2], score := none }

/-- A persisted unit whose embeddings were produced by model `"A"`. -/
def unitA : KnowledgeBase := ⟨[docA], some "A"⟩

/-- A persisted unit whose embeddings were produced by model `"B"`. -/
def unitB : KnowledgeBase := ⟨[docB], some "B"⟩

/-- A total embedding stub: every call succeeds. -/
def encA : String → Option (List ℚ) := fun _ => some [1]

/-- A constant similarity stub. -/
def sim0 : List ℚ → List ℚ → ℚ := fun _ _ => 1

/-- First persisted document of the already-processed source `h1`. -/
def docE1 : Doc :=
  { source := "doc.pdf", chunk_id := 0, text := "morceau un", file_hash := "h1"
    embedding := some [1], score := none }

/-- Second persisted document of the already-processed source `h1`. -/
def docE2 : Doc :=
  { source := "doc.pdf", chunk_id := 1, text := "morceau deux", file_hash := "h1"
    embedding := some [1], score := none }

/-- The persisted unit `kb_h1.json` for the unchanged source `doc.pdf`. -/
def unitH1 : KnowledgeBase := ⟨[docE1, docE2], some "all-MiniLM-L6-v2"⟩

/-- A store already holding the unit for fingerprint `h1`. -/
def store0 : List (String × KnowledgeBase) := [("h1", unitH1)]

/-! ## Helper lemmas on the chunker -/

/-- For a non-negative start index and positive width, the Python slice
`words[i : i + chunk_size]` is `take chunk_size` of `drop i`. -/
theorem pySlice_nonneg (l : List String) (i : Nat) (cs : Int) (hcs : 0 < cs) :
    pySlice l (i : Int) ((i : Int) + cs) = (l.drop i).take cs.toNat := by
  unfold pySlice pyClamp
  have h1 : ¬((i : Int) < 0) := by omega
  have h2 : ¬((i : Int) + cs < 0) := by omega
  rw [if_neg h1, if_neg h2]
  have h3 : (i : Int).toNat = i := by omega
  have h4 : ((i : Int) + cs).toNat = i + cs.toNat := by omega
  rw [h3, h4]
  by_cases hin : i ≤ l.length
  · rw [min_eq_left hin]
    by_cases hend : i + cs.toNat ≤ l.length
    · rw [min_eq_left hend]
      congr 1
      omega
    · rw [min_eq_right (by omega : l.length ≤ i + cs.toNat)]
      have hlen : (l.drop i).length = l.length - i := List.length_drop i l
      rw [List.take_of_length_le (le_of_eq hlen),
          List.take_of_length_le (by rw [hlen]; omega)]
  · push_neg at hin
    rw [min_eq_right (by omega : l.length ≤ i),
        List.drop_eq_nil_of_le (le_refl l.length),
        List.drop_eq_nil_of_le (by omega : l.length ≤ i)]
    simp

theorem ceilDiv_zero_num (b : Nat) : ceilDiv 0 b = 0 := by
  unfold ceilDiv
  cases b with
  | zero => rfl
  | succ b => exact Nat.div_eq_of_lt (by omega)

/-- Peeling one window off the ceiling division that counts them. -/
theorem ceilDiv_step (s m : Nat) (hs : 0 < s) (hm : 0 < m) :
    ceilDiv m s = ceilDiv (m - s) s + 1 := by
  unfold ceilDiv
  by_cases h : m ≤ s
  · have h0 : m - s = 0 := by omega
    rw [h0]
    have h1 : (0 + s - 1) / s = 0 := Nat.div_eq_of_lt (by omega)
    rw [h1]
    have h2 : m + s - 1 = (m - 1) + s := by omega
    rw [h2, Nat.add_div_right _ hs]
    have h3 : (m - 1) / s = 0 := Nat.div_eq_of_lt (by omega)
    omega
  · push_neg at h
    have e1 : m + s - 1 = (m - 1) + s := by omega
    have e2 : (m - s) + s - 1 = m - 1 := by omega
    rw [e1, e2, Nat.add_div_right _ hs]

/-- The word at position `j` belongs to the window starting at `a` as soon
as `a ≤ j < a + width`. -/
theorem word_mem_window (words : List String) (a j csN : Nat) (haj : a ≤ j)
    (hj : j < words.length) (hcs : j < a + csN) :
    words.get ⟨j, hj⟩ ∈ (words.drop a).take csN := by
  have h2 : j - a < ((words.drop a).take csN).length := by
    rw [List.length_take, List.length_drop]
    omega
  have h3 : ((words.drop a).take csN)[j - a] = words.get ⟨j, hj⟩ := by
    rw [List.getElem_take, List.getElem_drop, List.get_eq_getElem]
    congr 1
    simp only [Fin.val_mk]
    omega
  rw [← h3]
  exact List.getElem_mem h2

/-- Invariant of the chunking loop under valid parameters
`0 ≤ overlap < chunk_size`: with fuel covering the remaining iterations the
loop succeeds, appends `ceil((N - i) / (chunk_size - overlap))` chunks, and
every remaining word position lies in some produced window. -/
theorem chunkLoop_spec (words : List String) (cs ov : Int) (hov : 0 ≤ ov) (hcs : ov < cs) :
    ∀ (fuel i : Nat) (acc : List String),
      words.length ≤ i + fuel * (cs - ov).toNat →
      ∃ out : List String,
        chunkLoop fuel (i : Int) words cs ov acc = some (acc ++ out) ∧
        out.length = ceilDiv (words.length - i) (cs - ov).toNat ∧
        (∀ j, i ≤ j → ∀ hj : j < words.length, ∃ a : Nat,
          a ≤ j ∧ j < a + cs.toNat ∧
          words.get ⟨j, hj⟩ ∈ (words.drop a).take cs.toNat ∧
          (" ".intercalate ((words.drop a).take cs.toNat)) ∈ out) := by
  have hs : 0 < (cs - ov).toNat := by omega
  have hscs : (cs - ov).toNat ≤ cs.toNat := by omega
  intro fuel
  induction fuel with
  | zero =>
    intro i acc hle
    have hni : words.length ≤ i := by simpa using hle
    refine ⟨[], ?_, ?_, ?_⟩
    · simp only [chunkLoop]
      rw [if_neg (by omega : ¬((i : Int) < (words.length : Int)))]
      simp
    · have h0 : words.length - i = 0 := by omega
      simp [h0, ceilDiv_zero_num]
    · intro j hij hj
      omega
  | succ fuel ih =>
    intro i acc hle
    by_cases hin : i < words.length
    · have hcast : (i : Int) + (cs - ov) = ((i + (cs - ov).toNat : Nat) : Int) := by
        push_cast
        omega
      have hslice : pySlice words (i : Int) ((i : Int) + cs) = (words.drop i).take cs.toNat :=
        pySlice_nonneg words i cs (by omega)
      have hstep : chunkLoop (fuel + 1) (i : Int) words cs ov acc =
          chunkLoop fuel ((i + (cs - ov).toNat : Nat) : Int) words cs ov
            (acc ++ [" ".intercalate ((words.drop i).take cs.toNat)]) := by
        simp only [chunkLoop]
        rw [if_pos (by omega : (i : Int) < (words.length : Int)), hcast, hslice]
      have hle2 : words.length ≤ (i + (cs - ov).toNat) + fuel * (cs - ov).toNat := by
        have hm : (fuel + 1) * (cs - ov).toNat = fuel * (cs - ov).toNat + (cs - ov).toNat := by
          ring
        omega
      obtain ⟨out, ho1, ho2, ho3⟩ :=
        ih (i + (cs - ov).toNat) (acc ++ [" ".intercalate ((words.drop i).take cs.toNat)]) hle2
      refine ⟨" ".intercalate ((words.drop i).take cs.toNat) :: out, ?_, ?_, ?_⟩
      · rw [hstep, ho1]
        simp
      · simp only [List.length_cons]
        rw [ho2]
        have hm : 0 < words.length - i := by omega
        rw [ceilDiv_step _ _ hs hm]
        have he : words.length - i - (cs - ov).toNat = words.length - (i + (cs - ov).toNat) := by
          omega
        rw [he]
      · intro j hij hj
        by_cases hjw : j < i + (cs - ov).toNat
        · exact ⟨i, hij, by omega,
            word_mem_window words i j cs.toNat hij hj (by omega),
            List.mem_cons_self _ _⟩
        · obtain ⟨a, h1, h2, h3, h4⟩ := ho3 j (by omega) hj
          exact ⟨a, h1, h2, h3, List.mem_cons_of_mem _ h4⟩
    · refine ⟨[], ?_, ?_, ?_⟩
      · simp only [chunkLoop]
        rw [if_neg (by omega : ¬((i : Int) < (words.length : Int)))]
        simp
      · have h0 : words.length - i = 0 := by omega
        simp [h0, ceilDiv_zero_num]
      · intro j hij hj
        omega

/-- If the stripped text is empty every character is whitespace. -/
theorem stripChars_nil_all_ws (l : List Char) (h : stripChars l = []) :
    ∀ c ∈ l, c.isWhitespace = true := by
  unfold stripChars at h
  rw [List.reverse_eq_nil_iff] at h
  have h2 : ∀ c ∈ (l.dropWhile Char.isWhitespace), c.isWhitespace = true := by
    intro c hc
    exact List.dropWhile_eq_nil_iff.mp h c (List.mem_reverse.mpr hc)
  intro c hc
  rw [← List.takeWhile_append_dropWhile Char.isWhitespace l] at hc
  rcases List.mem_append.mp hc with h3 | h3
  · exact List.mem_takeWhile_imp h3
  · exact h2 c h3

/-- Splitting an all-whitespace character list yields no words. -/
theorem all_ws_pySplitAux (l : List Char) (h : ∀ c ∈ l, c.isWhitespace = true) :
    pySplitAux l [] = [] := by
  induction l with
  | nil => rfl
  | cons c rest ih =>
    have hc : c.isWhitespace = true := h c (List.mem_cons_self c rest)
    simp only [pySplitAux, hc, if_pos]
    exact ih fun x hx => h x (List.mem_cons_of_mem c hx)

/-- A text with at least one word does not strip to the empty string. -/
theorem pySplit_nonnil_strip (text : String) (h : pySplit text ≠ []) :
    ¬(pyStrip text = "") := by
  intro hs
  apply h
  unfold pySplit
  apply all_ws_pySplitAux
  apply stripChars_nil_all_ws
  exact congrArg String.data hs

/-- With stride `chunk_size - overlap = 0` the loop index never advances, so
the loop never exits: the fueled embedding answers `none` for every fuel. -/
theorem chunkLoop_stride_zero (words : List String) (cs ov : Int) (h0 : cs - ov = 0) :
    ∀ (fuel : Nat) (i : Int), i < (words.length : Int) →
      ∀ acc, chunkLoop fuel i words cs ov acc = none := by
  intro fuel
  induction fuel with
  | zero =>
    intro i hi acc
    simp only [chunkLoop]
    rw [if_pos hi]
  | succ fuel ih =>
    intro i hi acc
    simp only [chunkLoop]
    rw [if_pos hi, h0, add_zero]
    exact ih i hi _

/-! ## Claim theorems about the chunker -/

/-- C2 (amended): for every text with word count `N > chunk_size` and every
`0 ≤ overlap < chunk_size`, `chunk_text` terminates (fuel `N` suffices),
every word of the input appears in one of the produced windows, and the
number of chunks is `ceil(N / (chunk_size - overlap))` — not the claimed
`ceil((N - overlap) / (chunk_size - overlap))`. -/
theorem chunk_text_terminates_covers_count (text : String) (cs ov : Int) (fuel : Nat)
    (hov : 0 ≤ ov) (hcs : ov < cs)
    (hN : cs < ((pySplit text).length : Int))
    (hfuel : (pySplit text).length ≤ fuel) :
    ∃ chunks : List String,
      chunk_text fuel text cs ov = some chunks ∧
      chunks.length = ceilDiv (pySplit text).length (cs - ov).toNat ∧
      ∀ j, ∀ hj : j < (pySplit text).length, ∃ a : Nat,
        a ≤ j ∧ j < a + cs.toNat ∧
        (pySplit text).get ⟨j, hj⟩ ∈ ((pySplit text).drop a).take cs.toNat ∧
        (" ".intercalate (((pySplit text).drop a).take cs.toNat)) ∈ chunks := by
  have hne : pySplit text ≠ [] := by
    intro h
    rw [h] at hN
    simp at hN
    omega
  have hstrip := pySplit_nonnil_strip text hne
  have hlt : ¬(((pySplit text).length : Int) ≤ cs) := by omega
  obtain ⟨out, h1, h2, h3⟩ := chunkLoop_spec (pySplit text) cs ov hov hcs fuel 0 []
    (by
      have hs : 0 < (cs - ov).toNat := by omega
      have h4 : fuel ≤ fuel * (cs - ov).toNat := Nat.le_mul_of_pos_right fuel hs
      omega)
  refine ⟨out, ?_, ?_, ?_⟩
  · unfold chunk_text
    rw [if_neg hstrip, if_neg hlt]
    simpa using h1
  · simpa using h2
  · intro j hj
    exact h3 j (Nat.zero_le j) hj

/-- C2 (counterexample to the claimed chunk count): 6 words, chunk size 5,
overlap 3 produce 3 chunks, while `ceil((N - overlap) / (chunk_size -
overlap)) = ceil(3 / 2) = 2`. -/
theorem chunk_count_formula_cex :
    chunk_text 6 "a b c d e f" 5 3 = some ["a b c d e", "c d e f", "e f"] ∧
    ceilDiv ((6 : Nat) - 3) ((5 : Int) - 3).toNat = 2 ∧
    ([("a b c d e" : String), "c d e f", "e f"].length ≠ 2) :=
  ⟨by decide, by decide, by decide⟩

/-- C2 (witness): the amended theorem applied to the 3-word text
`"a b c"` with chunk size 2 and overlap 1. -/
theorem chunk_text_terminates_covers_count_witness :
    (0 : Int) ≤ 1 ∧ (1 : Int) < 2 ∧ (2 : Int) < ((pySplit "a b c").length : Int) ∧
    (pySplit "a b c").length ≤ 3 ∧
    (∃ chunks : List String,
      chunk_text 3 "a b c" 2 1 = some chunks ∧
      chunks.length = ceilDiv (pySplit "a b c").length ((2 : Int) - 1).toNat ∧
      ∀ j, ∀ hj : j < (pySplit "a b c").length, ∃ a : Nat,
        a ≤ j ∧ j < a + (2 : Int).toNat ∧
        (pySplit "a b c").get ⟨j, hj⟩ ∈ ((pySplit "a b c").drop a).take (2 : Int).toNat ∧
        (" ".intercalate (((pySplit "a b c").drop a).take (2 : Int).toNat)) ∈ chunks) :=
  ⟨by decide, by decide, by decide, by decide,
    chunk_text_terminates_covers_count "a b c" 2 1 3 (by decide) (by decide) (by decide)
      (by decide)⟩

/-- C3: `chunk_text` does NOT guard the window stride.  At the concrete
input `text = "a b"`, `chunk_size = 1`, `overlap = 1` the stride is 0, the
loop index never advances, and the loop never terminates: the fueled
embedding answers `none` for every fuel, refuting the claimed explicit
reject-or-clamp guard. -/
theorem chunk_text_full_overlap_diverges :
    ∀ fuel : Nat, chunk_text fuel "a b" 1 1 = none := by
  intro fuel
  unfold chunk_text
  rw [if_neg (by decide : ¬(pyStrip "a b" = "")),
      if_neg (by decide : ¬(((pySplit "a b").length : Int) ≤ 1))]
  exact chunkLoop_stride_zero (pySplit "a b") 1 1 (by decide) fuel 0 (by decide) []

/-- C7 (amended): a non-whitespace-only text with at most `chunk_size`
words is returned as the single chunk `[text]` — the original, untrimmed
input text. -/
theorem chunk_text_short_returns_input (text : String) (cs ov : Int) (fuel : Nat)
    (hstrip : ¬(pyStrip text = "")) (hlen : ((pySplit text).length : Int) ≤ cs) :
    chunk_text fuel text cs ov = some [text] := by
  unfold chunk_text
  rw [if_neg hstrip, if_pos hlen]

/-- C7 (counterexample to "equals the trimmed input"): the 1-word text
`" a"` is returned untrimmed, not as its trim `"a"`. -/
theorem chunk_text_untrimmed_cex :
    chunk_text 0 " a" 500 100 = some [" a"] ∧ pyStrip " a" = "a" ∧ (" a" : String) ≠ "a" :=
  ⟨by decide, by decide, by decide⟩

/-- C7 (witness): the amended theorem applied to `"a b"` with the default
chunk size. -/
theorem chunk_text_short_returns_input_witness :
    ¬(pyStrip "a b" = "") ∧ (((pySplit "a b").length : Int) ≤ 5) ∧
    chunk_text 0 "a b" 5 1 = some ["a b"] :=
  ⟨by decide, by decide, chunk_text_short_returns_input "a b" 5 1 0 (by decide) (by decide)⟩

/-! ## Claim theorems about the build pipeline -/

/-- C1: a rebuild over the unchanged source with fingerprint `h1`, whose
unit (2 documents) is already persisted, still invokes the embedding model
twice — once per loaded document — because `main` passes the loaded
documents straight to `create_document_embeddings`.  The claimed count of
zero embedding calls is violated. -/
theorem reused_unit_still_reembedded :
    (mainStep encA "all-MiniLM-L6-v2" store0 "h1" "doc.pdf" "contenu du pdf").2 = 2 ∧
    (2 : Nat) ≠ 0 :=
  ⟨by decide, by decide⟩

/-- C4: merging two persisted units produced under the distinct model
identities `"A"` and `"B"` silently concatenates their documents and
records the first model, with no mismatch detection, rejection or flag. -/
theorem merge_silently_concatenates :
    merge_knowledge_bases [unitA, unitB] = ⟨[docA, docB], some "A"⟩ ∧
    unitA.model ≠ unitB.model :=
  ⟨by decide, by decide⟩

/-- C9 (counterexample): over zero sources the build returns early and
produces nothing, and merging zero persisted units yields an empty document
list — no placeholder chunk exists. -/
theorem no_placeholder_cex :
    mainBuild encA "all-MiniLM-L6-v2" [] [] = none ∧
    (merge_knowledge_bases []).documents = [] :=
  ⟨rfl, rfl⟩

/-- C9 (amended): with zero sources `main` returns without writing any
knowledge base, and `merge_knowledge_bases` over zero persisted units
returns the empty document list with model `None`. -/
theorem empty_build_empty_result (encode : String → Option (List ℚ))
    (model_name : String) (store : List (String × KnowledgeBase)) :
    mainBuild encode model_name store [] = none ∧
    merge_knowledge_bases [] = ⟨[], none⟩ :=
  ⟨rfl, rfl⟩

/-! ## Claim theorems about the retrieval engine -/

/-- C6 (counterexample): when the query-embedding call raises over a
non-empty knowledge base, `search_local_knowledge` returns `[]` — the very
value a successful search over an empty knowledge base returns, so the
failure is not surfaced as a typed result distinct from "no documents". -/
theorem search_error_swallowed_cex :
    search_local_knowledge sim0 unitA none 3 = [] ∧
    search_local_knowledge sim0 ⟨[], none⟩ (some [1]) 3 = [] :=
  ⟨rfl, rfl⟩

/-- C6 (amended): a query-time embedding failure is caught by the
`except` block and swallowed into the empty result list, for every
knowledge base and every `top_k`. -/
theorem search_swallows_query_errors (simq : List ℚ → List ℚ → ℚ)
    (kb : KnowledgeBase) (top_k : Nat) :
    search_local_knowledge simq kb none top_k = [] := by
  unfold search_local_knowledge
  by_cases h : kb.documents = [] <;> simp [h]

/-- Filtering commutes with `map`. -/
theorem filter_of_map {α β : Type} (f : α → β) (p : β → Bool) :
    ∀ l : List α, (l.map f).filter p = (l.filter fun a => p (f a)).map f := by
  intro l
  induction l with
  | nil => rfl
  | cons x xs ih =>
    by_cases hx : p (f x) <;> simp [List.filter_cons, hx, ih]

/-- Filtering a `take`-prefix gives a prefix of the filtered list. -/
theorem filter_take_countP {α : Type} (p : α → Bool) :
    ∀ (l : List α) (k : Nat),
      (l.take k).filter p = (l.filter p).take ((l.take k).countP p) := by
  intro l
  induction l with
  | nil =>
    intro k
    simp
  | cons x xs ih =>
    intro k
    cases k with
    | zero => simp
    | succ k =>
      by_cases hx : p x <;>
        simp [List.take_succ_cons, List.filter_cons, List.countP_cons, hx, ih k]

/-- Stability of `orderedInsert` under `score_ge`, expressed per score
value: the inserted element lands in front of exactly the elements tied
with it (every element it passes over has a strictly larger score). -/
theorem filter_orderedInsert_score (q : ℚ) (a : Doc × ℚ) :
    ∀ l : List (Doc × ℚ),
      (List.orderedInsert score_ge a l).filter (fun p => decide (p.2 = q)) =
        if a.2 = q then a :: l.filter (fun p => decide (p.2 = q))
        else l.filter (fun p => decide (p.2 = q)) := by
  intro l
  induction l with
  | nil =>
    by_cases h : a.2 = q <;> simp [List.orderedInsert, List.filter_cons, h]
  | cons x xs ih =>
    have hoi : List.orderedInsert score_ge a (x :: xs) =
        if score_ge a x then a :: x :: xs else x :: List.orderedInsert score_ge a xs := rfl
    rw [hoi]
    by_cases hax : score_ge a x
    · rw [if_pos hax]
      by_cases haq : a.2 = q <;> by_cases hxq : x.2 = q <;>
        simp [List.filter_cons, haq, hxq]
    · rw [if_neg hax]
      have hax2 : ¬(x.2 ≤ a.2) := hax
      have hlt : a.2 < x.2 := lt_of_not_le hax2
      by_cases haq : a.2 = q
      · have hxq : ¬(x.2 = q) := by
          intro h
          rw [haq, h] at hlt
          exact lt_irrefl q hlt
        simp [List.filter_cons, hxq, ih, haq]
      · by_cases hxq : x.2 = q <;> simp [List.filter_cons, hxq, ih, haq]

/-- Stability of the whole sort: for each score value, the tied elements of
the sorted list are exactly the tied elements of the input, in order. -/
theorem filter_insertionSort_score (q : ℚ) :
    ∀ l : List (Doc × ℚ),
      (List.insertionSort score_ge l).filter (fun p => decide (p.2 = q)) =
        l.filter (fun p => decide (p.2 = q)) := by
  intro l
  induction l with
  | nil => rfl
  | cons x xs ih =>
    have h : List.insertionSort score_ge (x :: xs) =
        List.orderedInsert score_ge x (List.insertionSort score_ge xs) := rfl
    rw [h, filter_orderedInsert_score]
    by_cases hxq : x.2 = q <;> simp [hxq, ih, List.filter_cons]

/-- A pair scored by the similarity loop comes from a stored document whose
`embedding` key is present (and a non-empty vector). -/
theorem similarities_mem (simqv : List ℚ → ℚ) (docs : List Doc) (p : Doc × ℚ)
    (hp : p ∈ similarities simqv docs) :
    p.1 ∈ docs ∧ p.1.embedding ≠ none := by
  unfold similarities at hp
  obtain ⟨d, hd, hfd⟩ := List.mem_filterMap.mp hp
  cases hemb : d.embedding with
  | none =>
    rw [hemb] at hfd
    simp at hfd
  | some v =>
    cases v with
    | nil =>
      rw [hemb] at hfd
      simp at hfd
    | cons a as =>
      rw [hemb] at hfd
      have hp2 : p = (d, simqv (a :: as)) := by
        injection hfd with h
        exact h.symm
      rw [hp2]
      refine ⟨hd, ?_⟩
      rw [hemb]
      simp

/-- Every returned result is `buildResult` of a pair produced by the
similarity loop. -/
theorem search_mem_structure (simq : List ℚ → List ℚ → ℚ) (kb : KnowledgeBase)
    (qv : List ℚ) (top_k : Nat) (r : Doc)
    (hr : r ∈ search_local_knowledge simq kb (some qv) top_k) :
    ∃ p : Doc × ℚ, p ∈ similarities (simq qv) kb.documents ∧ r = buildResult p.1 p.2 := by
  unfold search_local_knowledge at hr
  by_cases hkb : kb.documents = []
  · rw [if_pos hkb] at hr
    simp at hr
  · rw [if_neg hkb] at hr
    obtain ⟨p, hp, hpr⟩ := List.mem_map.mp hr
    refine ⟨p, ?_, hpr.symm⟩
    have h2 : p ∈ List.insertionSort score_ge (similarities (simq qv) kb.documents) :=
      (List.take_sublist _ _).mem hp
    exact ((List.perm_insertionSort score_ge _).mem_iff).mp h2

/-- C5: `search_local_knowledge` returns at most `top_k` results, their
scores are non-increasing, and for every score value the tied results are a
prefix of the tied similarity pairs in original knowledge-base order (the
sort is stable); determinism is immediate since the embedding is a
function. -/
theorem search_topk_sorted_stable (simq : List ℚ → List ℚ → ℚ) (kb : KnowledgeBase)
    (qv : List ℚ) (top_k : Nat) :
    (search_local_knowledge simq kb (some qv) top_k).length ≤ top_k ∧
    (search_local_knowledge simq kb (some qv) top_k).Pairwise
      (fun r1 r2 => r2.score.getD 0 ≤ r1.score.getD 0) ∧
    ∀ q : ℚ, ∃ m : Nat,
      (search_local_knowledge simq kb (some qv) top_k).filter
          (fun r => decide (r.score = some q)) =
        (((similarities (simq qv) kb.documents).filter (fun p => decide (p.2 = q))).map
          (fun p => buildResult p.1 p.2)).take m := by
  unfold search_local_knowledge
  by_cases hkb : kb.documents = []
  · rw [if_pos hkb]
    refine ⟨Nat.zero_le _, List.Pairwise.nil, fun q => ⟨0, ?_⟩⟩
    simp [similarities, hkb]
  · rw [if_neg hkb]
    refine ⟨?_, ?_, ?_⟩
    · rw [List.length_map, List.length_take]
      exact min_le_left _ _
    · have hsorted : List.Pairwise score_ge
          (List.insertionSort score_ge (similarities (simq qv) kb.documents)) :=
        List.sorted_insertionSort score_ge _
      have htake : List.Pairwise score_ge
          ((List.insertionSort score_ge (similarities (simq qv) kb.documents)).take top_k) :=
        hsorted.sublist (List.take_sublist _ _)
      rw [List.pairwise_map]
      exact htake.imp fun h => h
    · intro q
      refine ⟨((List.insertionSort score_ge (similarities (simq qv) kb.documents)).take
          top_k).countP (fun p => decide (p.2 = q)), ?_⟩
      rw [filter_of_map]
      have hpred : (fun p : Doc × ℚ => decide ((buildResult p.1 p.2).score = some q)) =
          (fun p : Doc × ℚ => decide (p.2 = q)) := by
        funext p
        simp [buildResult]
      rw [hpred, filter_take_countP, filter_insertionSort_score, List.map_take]

/-- C8: a stored document whose `embedding` key is missing is skipped
entirely: it is never given a similarity score (every scored pair carries a
present embedding), and every returned result originates from a document
with a present embedding. -/
theorem search_skips_unembedded (simq : List ℚ → List ℚ → ℚ) (kb : KnowledgeBase)
    (qv : List ℚ) (top_k : Nat) :
    (∀ p ∈ similarities (simq qv) kb.documents, p.1.embedding ≠ none) ∧
    (∀ r ∈ search_local_knowledge simq kb (some qv) top_k,
      ∃ d ∈ kb.documents, d.embedding ≠ none ∧ ∃ s : ℚ, r = buildResult d s) := by
  constructor
  · intro p hp
    exact (similarities_mem _ _ p hp).2
  · intro r hr
    obtain ⟨p, hp, hrp⟩ := search_mem_structure simq kb qv top_k r hr
    obtain ⟨hmem, hne⟩ := similarities_mem _ _ p hp
    exact ⟨p.1, hmem, hne, p.2, hrp⟩

/-- C10: every returned result is a fresh copy of a stored document — the
score added, the embedding removed, all other fields equal — while the
stored document itself, embedding included, still sits unchanged in the
knowledge base (the search function never writes to it). -/
theorem search_results_are_copies (simq : List ℚ → List ℚ → ℚ) (kb : KnowledgeBase)
    (qv : List ℚ) (top_k : Nat) :
    ∀ r ∈ search_local_knowledge simq kb (some qv) top_k,
      ∃ d ∈ kb.documents, ∃ s : ℚ,
        r = buildResult d s ∧ r.embedding = none ∧ r.score = some s ∧
        r.source = d.source ∧ r.chunk_id = d.chunk_id ∧ r.text = d.text ∧
        r.file_hash = d.file_hash := by
  intro r hr
  obtain ⟨p, hp, hrp⟩ := search_mem_structure simq kb qv top_k r hr
  obtain ⟨hmem, _⟩ := similarities_mem _ _ p hp
  refine ⟨p.1, hmem, p.2, hrp, ?_, ?_, ?_, ?_, ?_, ?_⟩ <;> rw [hrp] <;> rfl

/-- C10 (witness): the copy theorem applied to the single result of a
search over the one-document knowledge base `unitA`. -/
theorem search_results_are_copies_witness :
    (buildResult docA 1) ∈ search_local_knowledge sim0 unitA (some [1]) 3 ∧
    (∃ d ∈ unitA.documents, ∃ s : ℚ,
      buildResult docA 1 = buildResult d s ∧
      (buildResult docA 1).embedding = none ∧
      (buildResult docA 1).score = some s ∧
      (buildResult docA 1).source = d.source ∧
      (buildResult docA 1).chunk_id = d.chunk_id ∧
      (buildResult docA 1).text = d.text ∧
      (buildResult docA 1).file_hash = d.file_hash) :=
  ⟨by decide, search_results_are_copies sim0 unitA [1] 3 (buildResult docA 1) (by decide)⟩
